import Mathlib

/-!
Verification of the lazy seekable object stream and the scoped temp-file
helpers of minio-go's io.go, as a shallow embedding in Lean.

The stream side models the struct objectReadSeeker and its methods Read,
Seek and Size.  The remote API (getObject / headObject) is an external
collaborator whose body is not part of the embedded file; it is modelled
from the spec's external-interface section.  Bytes are Nat values, Go
byte slices are lists, and the io.ReadCloser returned by a fetch is a
ByteSource record carrying the bytes still to be delivered, an optional
transport error to be reported once the bytes run out (none meaning a
clean EOF), and a closed flag.
-/

/-- Error values a read can surface: io.EOF, the read-on-closed-body
error a closed HTTP body returns, a transport error carrying a code, and
a marker for the nil-pointer dereference Go would hit if the isRead flag
were ever set without a reader (unreachable from well-formed states). -/
inductive ReadErr where
  | eof
  | closedBody
  | transport (code : Nat)
  | nilPanic
deriving DecidableEq

/-- Model of the io.ReadCloser handle returned by a fetch: the bytes not
yet delivered, an optional transport error delivered after the bytes run
out (none means a clean EOF there), and whether Close has been called. -/
structure ByteSource where
  data : List Nat
  tailErr : Option Nat
  closed : Bool
deriving DecidableEq

/-- One Read call on the underlying byte source.  A closed body reports
the read-after-close error; an exhausted body reports EOF or its pending
transport error; otherwise up to n bytes are delivered with no error. -/
def srcRead (s : ByteSource) (n : Nat) : (List Nat × Option ReadErr) × ByteSource :=
  if s.closed then (([], some ReadErr.closedBody), s)
  else if s.data.isEmpty then
    (([], some (match s.tailErr with
                | none => ReadErr.eof
                | some c => ReadErr.transport c)), s)
  else ((s.data.take n, none), { s with data := s.data.drop n })

/-- Model of io.Copy(ioutil.Discard, reader): consume whatever bytes
remain, discarding them. -/
def srcDrain (s : ByteSource) : ByteSource := { s with data := [] }

/-- Model of reader.Close(). -/
def srcClose (s : ByteSource) : ByteSource := { s with closed := true }

/-- Object metadata; only the size is used by this file. -/
structure ObjectStat where
  size : Int
deriving DecidableEq

/-- Modelled from the spec: the consumed capabilities FetchRange and
FetchMetadata of the surrounding system (the bodies of API.getObject and
API.headObject are not part of the embedded source file).  objectData
gives each object's content, fetchErr a per-object fetch-initiation
failure, headErr a per-object metadata-query failure. -/
structure API where
  objectData : String → String → List Nat
  fetchErr : String → String → Option Nat
  headErr : String → String → Option Nat

/-- Modelled from the spec: FetchRange returns a byte source yielding
the object's bytes from startOffset to end-of-object plus metadata, or
the initiation error.  A negative offset cannot form a valid range
request and fails. -/
def API.getObject (api : API) (bucket object : String) (offset : Int) (_length : Int) :
    Except Nat (ByteSource × ObjectStat) :=
  match api.fetchErr bucket object with
  | some e => Except.error e
  | none =>
      if offset < 0 then Except.error 400
      else Except.ok
        ({ data := (api.objectData bucket object).drop offset.toNat
         , tailErr := none, closed := false },
         { size := ((api.objectData bucket object).length : Int) })

/-- Modelled from the spec: FetchMetadata returns the object's size, or
a zero size together with the metadata-query error. -/
def API.headObject (api : API) (bucket object : String) : ObjectStat × Option Nat :=
  match api.headErr bucket object with
  | some e => ({ size := 0 }, some e)
  | none => ({ size := ((api.objectData bucket object).length : Int) }, none)

/-- The struct objectReadSeeker of io.go.  The mutex only serializes the
methods and has no sequential behaviour, so it is not represented; the
api field is passed to each operation instead of being stored. -/
structure objectReadSeeker where
  reader : Option ByteSource
  isRead : Bool
  stat : ObjectStat
  offset : Int
  bucketName : String
  objectName : String
deriving DecidableEq

/-- newObjectReadSeeker of io.go: reader nil, isRead false, offset 0,
stat at its zero value. -/
def newObjectReadSeeker (bucket object : String) : objectReadSeeker :=
  { reader := none, isRead := false, stat := { size := 0 }, offset := 0
  , bucketName := bucket, objectName := object }

/-- The part of objectReadSeeker.Read after the fetch-initiation block:
read from r.reader; on io.EOF drain, close and return the bytes with the
error; on any other error drain, close and return zero bytes with the
error; otherwise return the bytes read. -/
def readFromActive (r : objectReadSeeker) (n : Nat) :
    (List Nat × Option ReadErr) × objectReadSeeker :=
  match r.reader with
  | none => (([], some ReadErr.nilPanic), r)
  | some src =>
      match srcRead src n with
      | ((bs, none), src1) => ((bs, none), { r with reader := some src1 })
      | ((bs, some ReadErr.eof), src1) =>
          ((bs, some ReadErr.eof), { r with reader := some (srcClose (srcDrain src1)) })
      | ((_, some e), src1) =>
          (([], some e), { r with reader := some (srcClose (srcDrain src1)) })

/-- objectReadSeeker.Read of io.go: if isRead is not set, issue
getObject at the current offset (on failure return zero bytes and the
error with the state untouched), store the reader and set isRead; then
read from the active reader. -/
def objectReadSeeker.Read (api : API) (r : objectReadSeeker) (n : Nat) :
    (List Nat × Option ReadErr) × objectReadSeeker :=
  if r.isRead then readFromActive r n
  else
    match api.getObject r.bucketName r.objectName r.offset 0 with
    | Except.error e => (([], some (ReadErr.transport e)), r)
    | Except.ok (reader, _) =>
        readFromActive { r with reader := some reader, isRead := true } n

/-- objectReadSeeker.Seek of io.go: store the offset and return it with
a nil error; the whence argument is not inspected. -/
def objectReadSeeker.Seek (r : objectReadSeeker) (offset : Int) (_whence : Int) :
    (Int × Option Nat) × objectReadSeeker :=
  ((offset, none), { r with offset := offset })

/-- objectReadSeeker.Size of io.go: headObject, store the stat, return
its size together with the error. -/
def objectReadSeeker.Size (api : API) (r : objectReadSeeker) :
    (Int × Option Nat) × objectReadSeeker :=
  match api.headObject r.bucketName r.objectName with
  | (objectSt, err) => ((objectSt.size, err), { r with stat := objectSt })

/-- Run a sequence of Read calls with the given buffer sizes, collecting
each call's returned bytes and error. -/
def readSeq (api : API) (r : objectReadSeeker) :
    List Nat → List (List Nat × Option ReadErr) × objectReadSeeker
  | [] => ([], r)
  | n :: ns =>
      ((objectReadSeeker.Read api r n).1 ::
        (readSeq api (objectReadSeeker.Read api r n).2 ns).1,
       (readSeq api (objectReadSeeker.Read api r n).2 ns).2)

example :
    (objectReadSeeker.Read
      { objectData := fun _ _ => [10, 11, 12], fetchErr := fun _ _ => none
      , headErr := fun _ _ => none }
      (newObjectReadSeeker "b" "o") 2).1 = ([10, 11], none) := by decide

/-!
Temp-file side.  File names are modelled as lists of characters (the
bytes of the name), and the platform temp directory as a flat list of
the entry names it contains.  Directory entries never contain the path
separator, so the glob performed by cleanupStaleTempfiles reduces to
matching the last pattern component against each entry name.
-/

/-- Errors the filesystem operations can report. -/
inductive FsError where
  | badPattern
  | removeFailed (name : List Char)
  | notFound (name : List Char)
  | closeFailed
  | createFailed
deriving DecidableEq

/-- Modelled from the spec: the platform temp directory, a flat list of
entry names, together with the set of names whose removal the operating
system refuses (permission errors and the like). -/
structure FS where
  entries : List (List Char)
  removeFail : List (List Char)
deriving DecidableEq

/-- Modelled from the spec: os.Remove.  Removal of a refused name or of
an absent name reports an error; otherwise the entry disappears. -/
def fsRemove (fs : FS) (name : List Char) : Except FsError FS :=
  if name ∈ fs.removeFail then Except.error (FsError.removeFailed name)
  else if name ∈ fs.entries then
    Except.ok { fs with entries := fs.entries.filter (fun m => m ≠ name) }
  else Except.error (FsError.notFound name)

/-- Modelled from the spec: getEsc of Go's path.Match — read one
character class element, handling backslash escapes; a leading dash,
bracket or exhausted pattern, and an element that would end the chunk,
are malformed. -/
def getEsc : List Char → Option (Char × List Char)
  | [] => none
  | c :: cs =>
      if c = '-' ∨ c = ']' then none
      else if c = '\\' then
        match cs with
        | [] => none
        | d :: ds => if ds.isEmpty then none else some (d, ds)
      else if cs.isEmpty then none else some (c, cs)

/-- Modelled from the spec: the character-class loop of Go's path.Match,
run on the pattern remainder after the opening bracket, with the name
character being matched, the match accumulator and the count of ranges
seen so far.  Returns the pattern after the closing bracket and whether
the character fell in some range; none reports a malformed pattern.  The
fuel argument only bounds the recursion and is chosen large enough by
the caller. -/
def classRanges (r : Char) : Nat → List Char → Bool → Nat → Option (List Char × Bool)
  | 0, _, _, _ => none
  | _ + 1, ']' :: rest, acc, nrange =>
      if 0 < nrange then some (rest, acc) else none
  | fuel + 1, p, acc, nrange =>
      match getEsc p with
      | none => none
      | some (lo, p1) =>
          match p1 with
          | '-' :: p2 =>
              match getEsc p2 with
              | none => none
              | some (hi, p3) =>
                  classRanges r fuel p3 (acc || (decide (lo ≤ r) && decide (r ≤ hi))) (nrange + 1)
          | _ =>
              classRanges r fuel p1 (acc || decide (lo = r)) (nrange + 1)

/-- Modelled from the spec: Go's path.Match on a separator-free name.
A star matches any run of characters (a trailing star matches the whole
remainder at once, as in Go), a question mark one character, a bracket a
character class, a backslash escapes the next pattern character, and any
other character matches itself.  none reports ErrBadPattern; note that,
as in Go, a malformed tail is not reported when an earlier literal
already fails to match.  The fuel argument only bounds the recursion and
is chosen large enough by the caller. -/
def globMatch : Nat → List Char → List Char → Option Bool
  | 0, _, _ => none
  | _ + 1, [], s => some s.isEmpty
  | fuel + 1, c :: p, s =>
      if c = '*' then
        if p.isEmpty then some true
        else
          let r := globMatch fuel p s
          if r = none then none
          else if r = some true then some true
          else if s.isEmpty then some false
          else globMatch fuel (c :: p) s.tail
      else if c = '?' then
        if s.isEmpty then some false
        else globMatch fuel p s.tail
      else if c = '\\' then
        if p.isEmpty then none
        else if s.isEmpty then some false
        else if p.head! = s.head! then globMatch fuel p.tail s.tail
        else some false
      else if c = '[' then
        if s.isEmpty then some false
        else
          let negated := decide (p.head? = some '^')
          let p0 := if negated then p.tail else p
          match classRanges s.head! (p0.length + 1) p0 false 0 with
          | none => none
          | some (rest, matched) =>
              if matched = negated then some false
              else globMatch fuel rest s.tail
      else
        if s.isEmpty then some false
        else if c = s.head! then globMatch fuel p s.tail
        else some false

/-- Modelled from the spec: filepath.Glob over the temp directory —
match the last pattern component against each entry name in order,
collecting the matches and stopping at the first malformed-pattern
report. -/
def globDir (pat : List Char) : List (List Char) → Except FsError (List (List Char))
  | [] => Except.ok []
  | n :: ns =>
      match globMatch (pat.length + n.length + 1) pat n with
      | none => Except.error FsError.badPattern
      | some true =>
          match globDir pat ns with
          | Except.error e => Except.error e
          | Except.ok ms => Except.ok (n :: ms)
      | some false => globDir pat ns

/-- The removal loop of cleanupStaleTempfiles: remove each listed name
in order, returning the first failure together with the filesystem as it
stands at that point. -/
def removeList (fs : FS) : List (List Char) → Option FsError × FS
  | [] => (none, fs)
  | n :: ns =>
      match fsRemove fs n with
      | Except.error e => (some e, fs)
      | Except.ok fs1 => removeList fs1 ns

/-- cleanupStaleTempfiles of io.go: glob the temp directory for the
prefix followed by a star and remove every match, stopping at the first
error. -/
def cleanupStaleTempfiles (fs : FS) (pfx : List Char) : Option FsError × FS :=
  match globDir (pfx ++ ['*']) fs.entries with
  | Except.error e => (some e, fs)
  | Except.ok staleFiles => removeList fs staleFiles

/-- Model of an open os.File: its path (within the temp directory) and
whether File.Close would fail on it. -/
structure GoFile where
  name : List Char
  closeFail : Bool
deriving DecidableEq

/-- The struct tempFile of io.go.  The embedded os.File pointer becomes
an Option; the mutex only serializes Close and is not represented. -/
structure tempFile where
  file : Option GoFile
deriving DecidableEq

/-- newTempFile of io.go: ioutil.TempFile creates a fresh uniquely named
file under the temp directory; the generated uniqueness suffix is passed
explicitly.  Creation fails if the chosen name already exists. -/
def newTempFile (fs : FS) (pfx sfx : List Char) : Except FsError (FS × tempFile) :=
  if (pfx ++ sfx) ∈ fs.entries then Except.error FsError.createFailed
  else Except.ok
    ({ fs with entries := fs.entries ++ [pfx ++ sfx] },
     { file := some { name := pfx ++ sfx, closeFail := false } })

/-- tempFile.Close of io.go: when the file is still owned, close it and
remove its path, returning the first error with the ownership unchanged;
on success drop ownership.  A second call finds no file and is a
no-op returning success. -/
def tempFile.Close (fs : FS) (t : tempFile) : Option FsError × FS × tempFile :=
  match t.file with
  | none => (none, fs, t)
  | some f =>
      if f.closeFail then (some FsError.closeFailed, fs, t)
      else
        match fsRemove fs f.name with
        | Except.error e => (some e, fs, t)
        | Except.ok fs1 => (none, fs1, { file := none })

example :
    cleanupStaleTempfiles { entries := [['p', 'a'], ['q']], removeFail := [] } ['p'] =
      (none, { entries := [['q']], removeFail := [] }) := by decide

/-! Concrete instances used by witnesses and counterexamples. -/

/-- A working remote holding a ten-byte object. -/
def apiDemo : API :=
  { objectData := fun _ _ => [10, 11, 12, 13, 14, 15, 16, 17, 18, 19]
  , fetchErr := fun _ _ => none, headErr := fun _ _ => none }

/-- A remote whose fetch initiation always fails with code 7. -/
def apiFetchFail : API :=
  { objectData := fun _ _ => [1, 2, 3]
  , fetchErr := fun _ _ => some 7, headErr := fun _ _ => none }

/-- A working remote holding a three-byte object. -/
def apiSmall : API :=
  { objectData := fun _ _ => [1, 2, 3]
  , fetchErr := fun _ _ => none, headErr := fun _ _ => none }

/-!
Claim theorems.
-/

/-- C10: Seek stores the given offset unconditionally, for every offset
(negative included) and every whence value, and returns exactly the
offset paired with a nil error; it performs no validation. -/
theorem c10_seek_stores_unconditionally (r : objectReadSeeker) (offset : Int) (whence : Int) :
    objectReadSeeker.Seek r offset whence = ((offset, none), { r with offset := offset }) := rfl

/-- C3, counterexample evaluation: a Seek with whence = 1
(relative-to-current) on a stream whose offset is 10 silently stores 5
as an absolute offset and returns a nil error — it neither rejects the
call nor leaves the offset untouched, contradicting the claim (and the
whence semantics stated in the method's own documentation). -/
theorem c3_whence_one_repositions_absolutely :
    objectReadSeeker.Seek { newObjectReadSeeker "b" "o" with offset := 10 } 5 1 =
      ((5, none), { newObjectReadSeeker "b" "o" with offset := 5 }) ∧
    ((5 : Int) ≠ 10) := by
  exact ⟨rfl, by decide⟩

/-- C6: when no fetch is active and fetch initiation fails, Read returns
zero bytes together with the underlying error and the whole stream state
is returned unchanged. -/
theorem c6_fetch_failure_leaves_state_unchanged (api : API) (r : objectReadSeeker)
    (n : Nat) (e : Nat) (h1 : r.isRead = false)
    (h2 : api.fetchErr r.bucketName r.objectName = some e) :
    objectReadSeeker.Read api r n = (([], some (ReadErr.transport e)), r) := by
  simp [objectReadSeeker.Read, h1, API.getObject, h2]

/-- Witness for C6 at a concrete failing remote. -/
theorem c6_witness :
    objectReadSeeker.Read apiFetchFail (newObjectReadSeeker "b" "o") 4 =
      (([], some (ReadErr.transport 7)), newObjectReadSeeker "b" "o") :=
  c6_fetch_failure_leaves_state_unchanged apiFetchFail (newObjectReadSeeker "b" "o") 4 7 rfl rfl

/-- The stat field plays no role in readFromActive: reading from a
state whose stat was replaced returns the same bytes and error and the
same state up to that stat field. -/
lemma readFromActive_stat_frame (r : objectReadSeeker) (st : ObjectStat) (n : Nat) :
    readFromActive { r with stat := st } n =
      ((readFromActive r n).1, { (readFromActive r n).2 with stat := st }) := by
  cases hread : r.reader with
  | none => simp [readFromActive, hread]
  | some src =>
      rcases hsrc : srcRead src n with ⟨⟨bs, err⟩, src1⟩
      cases err with
      | none => simp [readFromActive, hread, hsrc]
      | some e => cases e <;> simp [readFromActive, hread, hsrc]

/-- The stat field plays no role in Read either. -/
lemma Read_stat_frame (api : API) (r : objectReadSeeker) (st : ObjectStat) (n : Nat) :
    objectReadSeeker.Read api { r with stat := st } n =
      ((objectReadSeeker.Read api r n).1,
       { (objectReadSeeker.Read api r n).2 with stat := st }) := by
  by_cases hr : r.isRead = true
  · have h1 : objectReadSeeker.Read api { r with stat := st } n =
        readFromActive { r with stat := st } n := by
      simp [objectReadSeeker.Read, hr]
    have h2 : objectReadSeeker.Read api r n = readFromActive r n := by
      simp [objectReadSeeker.Read, hr]
    rw [h1, h2, readFromActive_stat_frame]
  · have hr1 : r.isRead = false := by simpa using hr
    cases hg : api.getObject r.bucketName r.objectName r.offset 0 with
    | error e => simp [objectReadSeeker.Read, hr1, hg]
    | ok pair =>
        rcases pair with ⟨src, st2⟩
        have h1 : objectReadSeeker.Read api { r with stat := st } n =
            readFromActive { r with stat := st, reader := some src, isRead := true } n := by
          simp [objectReadSeeker.Read, hr1, hg]
        have h2 : objectReadSeeker.Read api r n =
            readFromActive { r with reader := some src, isRead := true } n := by
          simp [objectReadSeeker.Read, hr1, hg]
        rw [h1, h2]
        exact readFromActive_stat_frame { r with reader := some src, isRead := true } st n

/-- C7: Size never changes the offset, the active-fetch flag or the held
reader, it is idempotent — calling it again from the state it produced
returns the same size, the same error and the same state — and it does
not disturb subsequent Reads: a Read after Size returns exactly the
bytes and error it would have returned without the Size call, with the
state evolving identically apart from the stat just stored. -/
theorem c7_size_is_frame_preserving_and_idempotent (api : API) (r : objectReadSeeker) :
    ((objectReadSeeker.Size api r).2.offset = r.offset ∧
     (objectReadSeeker.Size api r).2.isRead = r.isRead ∧
     (objectReadSeeker.Size api r).2.reader = r.reader) ∧
    objectReadSeeker.Size api (objectReadSeeker.Size api r).2 = objectReadSeeker.Size api r ∧
    (∀ n, objectReadSeeker.Read api (objectReadSeeker.Size api r).2 n =
      ((objectReadSeeker.Read api r n).1,
       { (objectReadSeeker.Read api r n).2 with
         stat := (objectReadSeeker.Size api r).2.stat })) := by
  refine ⟨by simp [objectReadSeeker.Size], by simp [objectReadSeeker.Size], ?_⟩
  intro n
  rcases hh : api.headObject r.bucketName r.objectName with ⟨st1, e1⟩
  have h2 : (objectReadSeeker.Size api r).2 = { r with stat := st1 } := by
    simp [objectReadSeeker.Size, hh]
  rw [h2, Read_stat_frame]

/-- C8: a successful Release of an acquired temp resource removes the
acquired path from the filesystem and drops ownership, and a second
Release after the successful one is a no-op returning success. -/
theorem c8_release_roundtrip (fs fs1 fs2 : FS) (pfx sfx : List Char) (t : tempFile)
    (hacq : newTempFile fs pfx sfx = Except.ok (fs1, t))
    (hrel : (tempFile.Close fs2 t).1 = none) :
    (pfx ++ sfx) ∉ (tempFile.Close fs2 t).2.1.entries ∧
    (tempFile.Close fs2 t).2.2.file = none ∧
    tempFile.Close (tempFile.Close fs2 t).2.1 (tempFile.Close fs2 t).2.2 =
      (none, (tempFile.Close fs2 t).2.1, (tempFile.Close fs2 t).2.2) := by
  by_cases hmem : (pfx ++ sfx) ∈ fs.entries
  · simp [newTempFile, hmem] at hacq
  · simp [newTempFile, hmem] at hacq
    obtain ⟨hfs1, ht⟩ := hacq
    subst ht
    by_cases hrf : (pfx ++ sfx) ∈ fs2.removeFail
    · simp [tempFile.Close, fsRemove, hrf] at hrel
    · by_cases hent : (pfx ++ sfx) ∈ fs2.entries
      · simp [tempFile.Close, fsRemove, hrf, hent, List.mem_filter]
      · simp [tempFile.Close, fsRemove, hrf, hent] at hrel

/-- Witness for C8: acquire in an empty temp directory and release
immediately. -/
theorem c8_witness :
    (['p'] ++ ['1']) ∉
      (tempFile.Close { entries := [['p', '1']], removeFail := [] }
        { file := some { name := ['p', '1'], closeFail := false } }).2.1.entries ∧
    (tempFile.Close { entries := [['p', '1']], removeFail := [] }
        { file := some { name := ['p', '1'], closeFail := false } }).2.2.file = none ∧
    tempFile.Close
        (tempFile.Close { entries := [['p', '1']], removeFail := [] }
          { file := some { name := ['p', '1'], closeFail := false } }).2.1
        (tempFile.Close { entries := [['p', '1']], removeFail := [] }
          { file := some { name := ['p', '1'], closeFail := false } }).2.2 =
      (none,
       (tempFile.Close { entries := [['p', '1']], removeFail := [] }
         { file := some { name := ['p', '1'], closeFail := false } }).2.1,
       (tempFile.Close { entries := [['p', '1']], removeFail := [] }
         { file := some { name := ['p', '1'], closeFail := false } }).2.2) :=
  c8_release_roundtrip { entries := [], removeFail := [] }
    { entries := [['p', '1']], removeFail := [] }
    { entries := [['p', '1']], removeFail := [] } ['p'] ['1']
    { file := some { name := ['p', '1'], closeFail := false } } rfl rfl

/-- A prefix is glob-neutral when it contains none of the four pattern
metacharacters of Go's path.Match. -/
abbrev noGlobMeta (pfx : List Char) : Prop :=
  ∀ c ∈ pfx, c ≠ '*' ∧ c ≠ '?' ∧ c ≠ '[' ∧ c ≠ '\\'

/-- For a glob-neutral prefix, matching the pattern made of the prefix
and a trailing star coincides with the literal starts-with test. -/
lemma globMatch_noMeta : ∀ (pfx : List Char), noGlobMeta pfx →
    ∀ (fuel : Nat) (s : List Char), pfx.length + 1 ≤ fuel →
      globMatch fuel (pfx ++ ['*']) s = some (pfx.isPrefixOf s)
  | [], _, fuel, s, hfuel => by
      cases fuel with
      | zero => omega
      | succ f => cases s <;> rfl
  | c :: p, hmeta, fuel, s, hfuel => by
      obtain ⟨hc1, hc2, hc3, hc4⟩ := hmeta c (List.mem_cons_self c p)
      have hp : noGlobMeta p := fun d hd => hmeta d (List.mem_cons_of_mem c hd)
      cases fuel with
      | zero => omega
      | succ f =>
          have hf : p.length + 1 ≤ f := by
            simp only [List.length_cons] at hfuel
            omega
          cases s with
          | nil => simp [globMatch, hc1, hc2, hc3, hc4, List.isPrefixOf]
          | cons d s1 =>
              by_cases hcd : c = d
              · subst hcd
                simp [globMatch, hc1, hc2, hc3, hc4, List.isPrefixOf,
                  globMatch_noMeta p hp f s1 hf]
              · simp [globMatch, hc1, hc2, hc3, hc4, List.isPrefixOf, hcd]

/-- For a glob-neutral prefix, the directory glob returns exactly the
entries the prefix starts. -/
lemma globDir_noMeta (pfx : List Char) (h : noGlobMeta pfx) :
    ∀ entries : List (List Char),
      globDir (pfx ++ ['*']) entries =
        Except.ok (entries.filter (fun n => pfx.isPrefixOf n))
  | [] => rfl
  | n :: ns => by
      have hm := globMatch_noMeta pfx h (pfx.length + 1 + n.length + 1) n (by omega)
      cases hp : pfx.isPrefixOf n with
      | true =>
          rw [hp] at hm
          simp [globDir, hm, globDir_noMeta pfx h ns, List.filter_cons, hp]
      | false =>
          rw [hp] at hm
          simp [globDir, hm, globDir_noMeta pfx h ns, List.filter_cons, hp]

/-- Filtering by non-membership in the empty list keeps everything. -/
lemma filter_not_mem_nil (l : List (List Char)) :
    l.filter (fun m => decide (m ∉ ([] : List (List Char)))) = l := by
  apply List.filter_eq_self.mpr
  intro a _
  simp

/-- Two successive exclusion filters collapse into exclusion from the
consed list. -/
lemma filter_not_mem_cons (l : List (List Char)) (n : List Char) (ns : List (List Char)) :
    (l.filter (fun m => decide (m ≠ n))).filter (fun m => decide (m ∉ ns)) =
      l.filter (fun m => decide (m ∉ n :: ns)) := by
  rw [List.filter_filter]
  apply List.filter_congr
  intro a _
  by_cases h1 : a = n <;> by_cases h2 : a ∈ ns <;> simp [h1, h2]

/-- Removing a duplicate-free list of present, removable names succeeds
and leaves exactly the other entries. -/
lemma removeList_ok : ∀ (names : List (List Char)) (fs : FS),
    names.Nodup → (∀ n ∈ names, n ∈ fs.entries) → (∀ n ∈ names, n ∉ fs.removeFail) →
    removeList fs names =
      (none, { entries := fs.entries.filter (fun m => decide (m ∉ names))
             , removeFail := fs.removeFail })
  | [], fs, _, _, _ => by
      simp only [removeList, filter_not_mem_nil]
  | n :: ns, fs, hnd, hin, hrf => by
      have h1 : n ∉ fs.removeFail := hrf n (List.mem_cons_self n ns)
      have h2 : n ∈ fs.entries := hin n (List.mem_cons_self n ns)
      have hrem : fsRemove fs n =
          Except.ok { entries := fs.entries.filter (fun m => decide (m ≠ n))
                    , removeFail := fs.removeFail } := by
        simp [fsRemove, h1, h2]
      have hrec := removeList_ok ns
        { entries := fs.entries.filter (fun m => decide (m ≠ n))
        , removeFail := fs.removeFail }
        (List.Nodup.of_cons hnd)
        (fun m hm => by
          have hne : m ≠ n := by
            intro he
            subst he
            exact (List.nodup_cons.mp hnd).1 hm
          exact List.mem_filter.mpr ⟨hin m (List.mem_cons_of_mem n hm), by simp [hne]⟩)
        (fun m hm => hrf m (List.mem_cons_of_mem n hm))
      simp only [removeList, hrem, hrec, filter_not_mem_cons]

/-- Removing a duplicate-free list of present names whose first
unremovable element is bad stops there, reports it, and has removed
exactly the names before it. -/
lemma removeList_fail : ∀ (good : List (List Char)) (bad : List Char)
      (rest : List (List Char)) (fs : FS),
    (good ++ bad :: rest).Nodup → (∀ n ∈ good ++ bad :: rest, n ∈ fs.entries) →
    (∀ n ∈ good, n ∉ fs.removeFail) → bad ∈ fs.removeFail →
    removeList fs (good ++ bad :: rest) =
      (some (FsError.removeFailed bad),
       { entries := fs.entries.filter (fun m => decide (m ∉ good))
       , removeFail := fs.removeFail })
  | [], bad, rest, fs, _, _, _, hbad => by
      have hrem : fsRemove fs bad = Except.error (FsError.removeFailed bad) := by
        simp [fsRemove, hbad]
      simp only [List.nil_append, removeList, hrem, filter_not_mem_nil]
  | g :: good, bad, rest, fs, hnd, hin, hgood, hbad => by
      have h1 : g ∉ fs.removeFail := hgood g (List.mem_cons_self g good)
      have h2 : g ∈ fs.entries := hin g (List.mem_cons_self g (good ++ bad :: rest))
      have hrem : fsRemove fs g =
          Except.ok { entries := fs.entries.filter (fun m => decide (m ≠ g))
                    , removeFail := fs.removeFail } := by
        simp [fsRemove, h1, h2]
      have hrec := removeList_fail good bad rest
        { entries := fs.entries.filter (fun m => decide (m ≠ g))
        , removeFail := fs.removeFail }
        (List.Nodup.of_cons (by simpa using hnd))
        (fun m hm => by
          have hne : m ≠ g := by
            intro he
            subst he
            exact (List.nodup_cons.mp (by simpa using hnd)).1 hm
          exact List.mem_filter.mpr
            ⟨hin m (by simpa using List.mem_cons_of_mem g hm), by simp [hne]⟩)
        (fun m hm => hgood m (List.mem_cons_of_mem g hm))
        hbad
      have hstep : removeList fs ((g :: good) ++ bad :: rest) =
          removeList { entries := fs.entries.filter (fun m => decide (m ≠ g))
                     , removeFail := fs.removeFail } (good ++ bad :: rest) := by
        simp only [List.cons_append, removeList, hrem]
        rfl
      rw [hstep, hrec, filter_not_mem_cons]

/-- C9 as amended: for a prefix free of the glob metacharacters star,
question mark, bracket and backslash, the sweep deletes all and only the
entries the prefix starts, leaving decoys untouched; when no entry
matches it deletes nothing and returns success; and when some matching
entry cannot be removed it stops at the first such entry, reports that
failure, and has removed exactly the matching entries before it.  For a
prefix containing metacharacters the pattern is interpreted by glob
matching, and the starts-with description of the claim fails. -/
theorem c9_sweep_deletes_exactly_matches (fs : FS) (pfx : List Char)
    (hmeta : noGlobMeta pfx) (hnd : fs.entries.Nodup) :
    ((∀ n ∈ fs.entries.filter (fun n => pfx.isPrefixOf n), n ∉ fs.removeFail) →
      cleanupStaleTempfiles fs pfx =
        (none, { entries := fs.entries.filter (fun n => !(pfx.isPrefixOf n))
               , removeFail := fs.removeFail })) ∧
    (fs.entries.filter (fun n => pfx.isPrefixOf n) = [] →
      cleanupStaleTempfiles fs pfx = (none, fs)) ∧
    (∀ good bad rest,
      fs.entries.filter (fun n => pfx.isPrefixOf n) = good ++ bad :: rest →
      (∀ n ∈ good, n ∉ fs.removeFail) → bad ∈ fs.removeFail →
      cleanupStaleTempfiles fs pfx =
        (some (FsError.removeFailed bad),
         { entries := fs.entries.filter (fun m => decide (m ∉ good))
         , removeFail := fs.removeFail })) := by
  have hglob := globDir_noMeta pfx hmeta fs.entries
  refine ⟨?_, ?_, ?_⟩
  · intro hfail
    have hok := removeList_ok (fs.entries.filter (fun n => pfx.isPrefixOf n)) fs
      (List.Nodup.filter _ hnd)
      (fun m hm => (List.mem_filter.mp hm).1)
      hfail
    have hfilter :
        fs.entries.filter
            (fun m => decide (m ∉ fs.entries.filter (fun n => pfx.isPrefixOf n))) =
          fs.entries.filter (fun n => !(pfx.isPrefixOf n)) := by
      apply List.filter_congr
      intro a ha
      by_cases hp : pfx.isPrefixOf a
      · simp [List.mem_filter, ha, hp]
      · simp [List.mem_filter, hp]
    simp only [cleanupStaleTempfiles, hglob, hok, hfilter]
  · intro hempty
    simp only [cleanupStaleTempfiles, hglob, hempty, removeList]
  · intro good bad rest hsplit hgood hbad
    have hfail := removeList_fail good bad rest fs
      (hsplit ▸ List.Nodup.filter _ hnd)
      (fun m hm => (List.mem_filter.mp (hsplit ▸ hm)).1)
      hgood hbad
    simp only [cleanupStaleTempfiles, hglob, hsplit, hfail]

/-- Witness for C9 as amended: sweeping prefix p among decoys. -/
theorem c9_witness :
    cleanupStaleTempfiles
        { entries := [['p', 'a'], ['q'], ['p']], removeFail := [] } ['p'] =
      (none,
       { entries := [['p', 'a'], ['q'], ['p']].filter (fun n => !(['p'].isPrefixOf n))
       , removeFail := [] }) :=
  (c9_sweep_deletes_exactly_matches
      { entries := [['p', 'a'], ['q'], ['p']], removeFail := [] } ['p']
      (by decide) (by decide)).1 (by decide)

/-- C9, counterexample evaluation: with the prefix consisting of the
single character question mark, the sweep deletes the decoy entry z even
though z does not start with that prefix — the glob pattern built from
the prefix matches it — so the all-and-only starts-with description
fails for metacharacter prefixes. -/
theorem c9_metachar_prefix_deletes_decoy :
    cleanupStaleTempfiles { entries := [['z']], removeFail := [] } ['?'] =
      (none, { entries := [], removeFail := [] }) ∧
    (['?'].isPrefixOf ['z']) = false := by
  exact ⟨by decide, by decide⟩

/-- A stream whose active reader will report a mid-stream transport
error on the next read. -/
def rErrState : objectReadSeeker :=
  { reader := some { data := [], tailErr := some 9, closed := false }
  , isRead := true, stat := { size := 0 }, offset := 0
  , bucketName := "b", objectName := "o" }

/-- A stream whose active reader is exhausted and will report EOF. -/
def rEofState : objectReadSeeker :=
  { reader := some { data := [], tailErr := none, closed := false }
  , isRead := true, stat := { size := 0 }, offset := 0
  , bucketName := "b", objectName := "o" }

/-- Any readFromActive call that returns an error leaves the isRead flag
as it was and leaves the reader held and closed. -/
lemma readFromActive_closes (r : objectReadSeeker) (n : Nat) (src : ByteSource)
    (hs : r.reader = some src) (herr : (readFromActive r n).1.2 ≠ none) :
    (readFromActive r n).2.isRead = r.isRead ∧
    ∃ s1, (readFromActive r n).2.reader = some s1 ∧ s1.closed = true := by
  by_cases hcl : src.closed
  · refine ⟨?_, srcClose (srcDrain src), ?_, rfl⟩ <;>
      simp [readFromActive, hs, srcRead, hcl, srcClose, srcDrain]
  · by_cases hd : src.data.isEmpty
    · cases ht : src.tailErr with
      | none =>
          refine ⟨?_, srcClose (srcDrain { src with data := src.data }), ?_, rfl⟩ <;>
            simp [readFromActive, hs, srcRead, hcl, hd, ht, srcClose, srcDrain]
      | some c =>
          refine ⟨?_, srcClose (srcDrain { src with data := src.data }), ?_, rfl⟩ <;>
            simp [readFromActive, hs, srcRead, hcl, hd, ht, srcClose, srcDrain]
    · simp [readFromActive, hs, srcRead, hcl, hd] at herr

/-- C4, counterexample evaluation: a Read whose active reader reports a
transport error returns that error, yet the resulting state still has
the active-fetch flag set — it is not the no-active-fetch state of a
fresh stream — and repeating the same Read reads the closed handle and
reports the read-on-closed-body error, whereas a fresh stream at the
same offset would fetch the object's bytes. -/
theorem c4_failed_read_keeps_active_flag :
    (objectReadSeeker.Read apiSmall rErrState 5).1.2 = some (ReadErr.transport 9) ∧
    (objectReadSeeker.Read apiSmall rErrState 5).2.isRead ≠ false ∧
    (objectReadSeeker.Read apiSmall (objectReadSeeker.Read apiSmall rErrState 5).2 5).1 =
      ([], some ReadErr.closedBody) ∧
    (objectReadSeeker.Read apiSmall
        { newObjectReadSeeker "b" "o" with offset := rErrState.offset } 5).1 =
      ([1, 2, 3], none) := by
  refine ⟨by decide, by decide, by decide, by decide⟩

/-- C4 as amended: a Read that fails at fetch initiation leaves the
state unchanged, so a retry issues a new fetch; a Read that returns an
error from the active reader keeps the active-fetch flag set and keeps
holding the (now closed) reader, and a retry from a state holding a
closed reader reads that closed handle — reporting the
read-on-closed-body error — instead of issuing a new fetch. -/
theorem c4_amended_error_state (api : API) (r : objectReadSeeker) (n : Nat) :
    (∀ e, r.isRead = false → api.fetchErr r.bucketName r.objectName = some e →
        objectReadSeeker.Read api r n = (([], some (ReadErr.transport e)), r)) ∧
    (∀ src, r.isRead = true → r.reader = some src →
        (objectReadSeeker.Read api r n).1.2 ≠ none →
        (objectReadSeeker.Read api r n).2.isRead = true ∧
        ∃ s1, (objectReadSeeker.Read api r n).2.reader = some s1 ∧ s1.closed = true) ∧
    (∀ src, r.isRead = true → r.reader = some src → src.closed = true →
        objectReadSeeker.Read api r n =
          (([], some ReadErr.closedBody),
           { r with reader := some (srcClose (srcDrain src)) })) := by
  refine ⟨?_, ?_, ?_⟩
  · intro e h1 h2
    simp [objectReadSeeker.Read, h1, API.getObject, h2]
  · intro src h1 h2 herr
    have hR : objectReadSeeker.Read api r n = readFromActive r n := by
      simp [objectReadSeeker.Read, h1]
    rw [hR] at herr ⊢
    have hc := readFromActive_closes r n src h2 herr
    exact ⟨by rw [hc.1, h1], hc.2⟩
  · intro src h1 h2 hcl
    simp [objectReadSeeker.Read, h1, readFromActive, h2, srcRead, hcl]

/-- Witness for C4 as amended: retrying on a closed handle. -/
theorem c4_amended_witness :
    objectReadSeeker.Read apiSmall
        { rErrState with reader := some { data := [], tailErr := some 9, closed := true } } 5 =
      (([], some ReadErr.closedBody),
       { rErrState with
         reader := some (srcClose (srcDrain { data := [], tailErr := some 9, closed := true })) }) :=
  (c4_amended_error_state apiSmall
      { rErrState with reader := some { data := [], tailErr := some 9, closed := true } } 5).2.2
    { data := [], tailErr := some 9, closed := true } rfl rfl rfl

/-- C5: every Read call that reaches the underlying fetch and returns an
error — end-of-stream included — leaves the fetch handle closed: the
state after such a terminal Read holds a reader whose closed flag is
set, so no handle is left open. -/
theorem c5_terminal_read_closes_handle (api : API) (r : objectReadSeeker) (n : Nat)
    (hwf : r.isRead = true → ∃ s, r.reader = some s)
    (hinit : r.isRead = false →
      ∃ src st2, api.getObject r.bucketName r.objectName r.offset 0 = Except.ok (src, st2))
    (herr : (objectReadSeeker.Read api r n).1.2 ≠ none) :
    ∃ s1, (objectReadSeeker.Read api r n).2.reader = some s1 ∧ s1.closed = true := by
  cases hr : r.isRead with
  | true =>
      obtain ⟨src, hs⟩ := hwf hr
      have hR : objectReadSeeker.Read api r n = readFromActive r n := by
        simp [objectReadSeeker.Read, hr]
      rw [hR] at herr ⊢
      exact (readFromActive_closes r n src hs herr).2
  | false =>
      obtain ⟨src, st2, hg⟩ := hinit hr
      have hR : objectReadSeeker.Read api r n =
          readFromActive { r with reader := some src, isRead := true } n := by
        simp [objectReadSeeker.Read, hr, hg]
      rw [hR] at herr ⊢
      exact (readFromActive_closes { r with reader := some src, isRead := true } n src rfl herr).2

/-- Witness for C5: a Read that hits end-of-stream closes the handle. -/
theorem c5_witness :
    ∃ s1, (objectReadSeeker.Read apiSmall rEofState 5).2.reader = some s1 ∧ s1.closed = true :=
  c5_terminal_read_closes_handle apiSmall rEofState 5
    (fun _ => ⟨{ data := [], tailErr := none, closed := false }, rfl⟩)
    (fun h => Bool.noConfusion h) (by decide)

/-- A stream in mid-read: the active reader still has to deliver rest. -/
def activeState (rest : List Nat) (stt : ObjectStat) (off : Int) (b o : String) :
    objectReadSeeker :=
  { reader := some { data := rest, tailErr := none, closed := false }
  , isRead := true, stat := stt, offset := off, bucketName := b, objectName := o }

/-- A stream whose fetch has been exhausted and whose reader has been
closed after reporting EOF. -/
def doneState (stt : ObjectStat) (off : Int) (b o : String) : objectReadSeeker :=
  { reader := some { data := [], tailErr := none, closed := true }
  , isRead := true, stat := stt, offset := off, bucketName := b, objectName := o }

/-- After the reader has been closed, every further Read returns zero
bytes with the read-on-closed-body error and leaves the state fixed. -/
lemma readSeq_done (api : API) (stt : ObjectStat) (off : Int) (b o : String) :
    ∀ ns : List Nat,
      readSeq api (doneState stt off b o) ns =
        (ns.map (fun _ => ([], some ReadErr.closedBody)), doneState stt off b o)
  | [] => rfl
  | n :: ns => by
      have hstep : objectReadSeeker.Read api (doneState stt off b o) n =
          (([], some ReadErr.closedBody), doneState stt off b o) := rfl
      simp only [readSeq, hstep, readSeq_done api stt off b o ns, List.map_cons]

/-- Running positive-sized reads from a mid-read state, with the sizes
before the last one covering the remaining bytes, returns exactly the
remaining bytes and reports EOF exactly once. -/
lemma readSeq_active (api : API) (stt : ObjectStat) (off : Int) (b o : String) :
    ∀ (ns : List Nat) (rest : List Nat), ns ≠ [] → (∀ n ∈ ns, 0 < n) →
      rest.length ≤ ns.dropLast.sum →
      (((readSeq api (activeState rest stt off b o) ns).1.map Prod.fst).flatten = rest ∧
       (readSeq api (activeState rest stt off b o) ns).1.countP
          (fun out => decide (out.2 = some ReadErr.eof)) = 1) := by
  intro ns
  induction ns with
  | nil => intro rest hne _ _; exact absurd rfl hne
  | cons n ns ih =>
      intro rest _ hpos hcover
      cases ns with
      | nil =>
          have hrest : rest = [] := by
            simp [List.dropLast] at hcover
            exact hcover
          subst hrest
          have hrun : readSeq api (activeState [] stt off b o) [n] =
              ([([], some ReadErr.eof)], doneState stt off b o) := rfl
          rw [hrun]
          exact ⟨rfl, rfl⟩
      | cons m ms =>
          cases rest with
          | nil =>
              have hone : readSeq api (activeState [] stt off b o) (n :: m :: ms) =
                  (([], some ReadErr.eof) ::
                    (readSeq api (doneState stt off b o) (m :: ms)).1,
                   (readSeq api (doneState stt off b o) (m :: ms)).2) := rfl
              rw [hone, readSeq_done api stt off b o (m :: ms)]
              refine ⟨?_, ?_⟩
              · simp [List.map_map, Function.comp_def]
              · have htail :
                    ((m :: ms).map
                        (fun _ => (([] : List Nat), some ReadErr.closedBody))).countP
                      (fun out => decide (out.2 = some ReadErr.eof)) = 0 := by
                  rw [List.countP_eq_zero]
                  intro a ha
                  rcases List.mem_map.mp ha with ⟨x, _, rfl⟩
                  simp
                simp [List.countP_cons, htail]
          | cons x xs =>
              have hone : readSeq api (activeState (x :: xs) stt off b o) (n :: m :: ms) =
                  (((x :: xs).take n, none) ::
                    (readSeq api (activeState ((x :: xs).drop n) stt off b o) (m :: ms)).1,
                   (readSeq api (activeState ((x :: xs).drop n) stt off b o) (m :: ms)).2) :=
                rfl
              have hcover1 : ((x :: xs).drop n).length ≤ (m :: ms).dropLast.sum := by
                have hsum : (n :: m :: ms).dropLast.sum = n + (m :: ms).dropLast.sum := by
                  simp [List.dropLast]
                rw [hsum] at hcover
                simp only [List.length_drop]
                omega
              have hrec := ih ((x :: xs).drop n) (by simp)
                (fun k hk => hpos k (List.mem_cons_of_mem n hk)) hcover1
              rw [hone]
              refine ⟨?_, ?_⟩
              · simp only [List.map_cons, List.flatten_cons]
                rw [hrec.1, List.take_append_drop]
              · simp [List.countP_cons, hrec.2]

/-- C2: starting from a fresh stream with a working remote and no
intervening Seek, any sequence of positive-size Read calls whose sizes
before the final call cover the object returns, concatenated, exactly
the full object content, and reports end-of-stream exactly once across
the sequence. -/
theorem c2_sequential_reads_return_full_object (api : API) (b o : String) (ns : List Nat)
    (hfetch : api.fetchErr b o = none) (hne : ns ≠ [])
    (hpos : ∀ n ∈ ns, 0 < n)
    (hcover : (api.objectData b o).length ≤ ns.dropLast.sum) :
    (((readSeq api (newObjectReadSeeker b o) ns).1.map Prod.fst).flatten = api.objectData b o ∧
     (readSeq api (newObjectReadSeeker b o) ns).1.countP
        (fun out => decide (out.2 = some ReadErr.eof)) = 1) := by
  cases ns with
  | nil => exact absurd rfl hne
  | cons n ns =>
      have hfirst : objectReadSeeker.Read api (newObjectReadSeeker b o) n =
          objectReadSeeker.Read api (activeState (api.objectData b o) { size := 0 } 0 b o) n := by
        simp [objectReadSeeker.Read, newObjectReadSeeker, API.getObject, hfetch,
          activeState, readFromActive]
      have hseq : readSeq api (newObjectReadSeeker b o) (n :: ns) =
          readSeq api (activeState (api.objectData b o) { size := 0 } 0 b o) (n :: ns) := by
        simp only [readSeq, hfirst]
      rw [hseq]
      exact readSeq_active api { size := 0 } 0 b o (n :: ns) (api.objectData b o)
        (by simp) hpos hcover

/-- Witness for C2: three reads over a three-byte object. -/
theorem c2_witness :
    (((readSeq apiSmall (newObjectReadSeeker "b" "o") [2, 2, 1]).1.map Prod.fst).flatten =
        apiSmall.objectData "b" "o" ∧
     (readSeq apiSmall (newObjectReadSeeker "b" "o") [2, 2, 1]).1.countP
        (fun out => decide (out.2 = some ReadErr.eof)) = 1) :=
  c2_sequential_reads_return_full_object apiSmall "b" "o" [2, 2, 1] rfl (by decide)
    (by decide) (by decide)

/-- C1, counterexample evaluation: on a ten-byte object, Read(5) then
Seek(2) then Read(10) serves bytes 5 through 9 of the object — the
continuation of the previously active fetch — while a stream that seeks
to 2 before its first Read serves bytes 2 through 9; Seek leaves the
active fetch in place, so the claimed equality with a fresh read from
the seek target fails. -/
theorem c1_read_after_seek_serves_stale_fetch :
    (objectReadSeeker.Read apiDemo (newObjectReadSeeker "b" "o") 5).1 =
      ([10, 11, 12, 13, 14], none) ∧
    (objectReadSeeker.Read apiDemo
        (objectReadSeeker.Seek
          (objectReadSeeker.Read apiDemo (newObjectReadSeeker "b" "o") 5).2 2 0).2
        10).1.1 = [15, 16, 17, 18, 19] ∧
    (objectReadSeeker.Read apiDemo
        (objectReadSeeker.Seek (newObjectReadSeeker "b" "o") 2 0).2 10).1.1 =
      [12, 13, 14, 15, 16, 17, 18, 19] ∧
    [15, 16, 17, 18, 19] ≠ ([12, 13, 14, 15, 16, 17, 18, 19] : List Nat) := by
  refine ⟨by decide, by decide, by decide, by decide⟩


